import Mathlib

/-!
Shallow embedding of the remote-wall-switch firmware core
(`src/remotes.cpp`, `src/timer.cpp`, `src/timer.h`).

Machine integers are modelled as `Nat` with explicit `% 2 ^ w` at the
points where the C code narrows or wraps.  The hardware tick counter
(`TCNT1`, read through `Timer::GetCurrent`) and the pin/delay side
effects are externalized: the tick is an explicit `current` argument and
transmissions become explicit event traces.
-/

/-! ## Timer (src/timer.h, src/timer.cpp) -/

/-- `Timer::TimerWaitValue`: a pair of 16-bit tick snapshots. -/
structure TimerWaitValue where
  startValue : Nat
  endValue : Nat
deriving DecidableEq, Repr

/-- `Timer::always = {0, 0}` (src/timer.h). -/
def always : TimerWaitValue := ⟨0, 0⟩

/-- `Timer::ticksPerSecond = 7812` (src/timer.h). -/
def ticksPerSecond : Nat := 7812

/-- `Timer::HasPassed` (src/timer.cpp): the hardware counter read
`GetCurrent()` is the explicit argument `current`. -/
def HasPassed (current : Nat) (val : TimerWaitValue) : Bool :=
  if val.startValue ≤ val.endValue then
    decide (current ≥ val.endValue) || decide (current < val.startValue)
  else
    decide (current < val.startValue) && decide (current ≥ val.endValue)

/-- `Timer::HasPassedOnce` (src/timer.cpp): the mutation of the
by-reference parameter is returned as the second component. -/
def HasPassedOnce (current : Nat) (val : TimerWaitValue) : Bool × TimerWaitValue :=
  if HasPassed current val then (true, always) else (false, val)

/-- `Timer::After` (src/timer.cpp): `{currentTimer, currentTimer + ticks}`
with the 16-bit sum wrapping modulo `2 ^ 16`. -/
def After (current ticks : Nat) : TimerWaitValue :=
  ⟨current, (current + ticks) % 65536⟩

/-! ## Protocol table (src/remotes.cpp, `struct Encoding` and `symbols[]`) -/

/-- `Encoding::Symbol`: a (high-duration, low-duration) pair in 4 µs units. -/
abbrev Encoding.Symbol : Type := Nat × Nat

/-- `struct Encoding` (src/remotes.cpp): the two-symbol alphabet
`Symbol alphabet[2]` is modelled as a pair (index 0, index 1). -/
structure Encoding where
  us4_between_repeats : Nat
  bits : Nat
  us4_start_high : Nat
  us4_start_low : Nat
  alphabet : Encoding.Symbol × Encoding.Symbol
deriving DecidableEq, Repr

/-- Out-of-range placeholder used only by the guarded list lookups. -/
def dummyEncoding : Encoding := ⟨0, 0, 0, 0, ((0, 0), (0, 0))⟩

/-- The protocol table `const Encoding symbols[]` (src/remotes.cpp):
quigg, impuls, globaltronic. -/
def symbols : List Encoding :=
  [ ⟨17000, 20, 175, 0, ((175, 350), (350, 175))⟩,
    ⟨1500, 25, 0, 0, ((140, 49), (42, 147))⟩,
    ⟨1, 24, 756, 1784, ((131, 250), (250, 131))⟩ ]

/-! ## Switch registry (src/remotes.cpp, `struct Switch` and `switches[]`) -/

/-- `struct Switch` (src/remotes.cpp): `signals[2]` becomes the pair
(off-signal, on-signal). -/
structure Switch where
  encoding : Nat
  signals : Nat × Nat
deriving DecidableEq, Repr

/-- Out-of-range placeholder used only by the guarded list lookups. -/
def dummySwitch : Switch := ⟨0, (0, 0)⟩

/-- The switch registry `const Switch switches[]` (src/remotes.cpp),
ten entries, with the source's binary literals. -/
def switches : List Switch :=
  [ ⟨0, (0b01000001000000001101, 0b11001001000000001101)⟩,
    ⟨1, (0b1011101010101110000000000, 0b1110101010101110000000000)⟩,
    ⟨1, (0b1011101011101010000000000, 0b1110101011101010000000000)⟩,
    ⟨2, (0b111011000111011101001111, 0b111010011011010000011111)⟩,
    ⟨2, (0b011101101000000110001111, 0b011100011101100000001111)⟩,
    ⟨2, (0b001111011100010111101111, 0b001101010110110010011111)⟩,
    ⟨0, (0b00000000000000001101, 0b10001000000000001101)⟩,
    ⟨0, (0b11000011000000001101, 0b01001011000000001101)⟩,
    ⟨0, (0b10000010000000001101, 0b00001010000000001101)⟩,
    ⟨2, (0b101010111001111010111111, 0b101000000100000001011111)⟩ ]

/-! ## Symbol encoder / transmitter (src/remotes.cpp)

The GPIO and busy-wait side effects of `send_symbol`, `send_command_once`
and `send_command` are reified as a trace of events on the `led` and
`transmit` pins. -/

/-- One observable side effect of a transmission. -/
inductive Event where
  | setLed
  | clearLed
  | setTransmit
  | clearTransmit
  | toggleTransmit
  | delay4us (n : Nat)
deriving DecidableEq, Repr

/-- `send_symbol` (src/remotes.cpp): toggle, hold `symbol[0]`, toggle,
hold `symbol[1]`. -/
def send_symbol (s : Encoding.Symbol) : List Event :=
  [Event.toggleTransmit, Event.delay4us s.1, Event.toggleTransmit, Event.delay4us s.2]

/-- The `while (bitcounter--)` loop body of `send_command_once`:
one symbol per remaining bit, selected by `value & 0x01`, then
`value >>= 1`. -/
def send_bits (code : Encoding) : Nat → Nat → List Event
  | _, 0 => []
  | value, n + 1 =>
      send_symbol (if value % 2 = 1 then code.alphabet.2 else code.alphabet.1)
        ++ send_bits code (value / 2) n

/-- The sequence of symbols chosen by the bit loop of
`send_command_once`, in emission order. -/
def emittedSymbols (code : Encoding) : Nat → Nat → List Encoding.Symbol
  | _, 0 => []
  | value, n + 1 =>
      (if value % 2 = 1 then code.alphabet.2 else code.alphabet.1)
        :: emittedSymbols code (value / 2) n

/-- `send_command_once` (src/remotes.cpp): led on, optional start-high
phase, optional start-low phase, `code.bits` symbols LSB-first,
transmit and led cleared. -/
def send_command_once (code : Encoding) (value : Nat) : List Event :=
  [Event.setLed]
    ++ (if code.us4_start_high ≠ 0 then
          [Event.setTransmit, Event.delay4us code.us4_start_high] else [])
    ++ (if code.us4_start_low ≠ 0 then
          [Event.clearTransmit, Event.delay4us code.us4_start_low] else [])
    ++ send_bits code value code.bits
    ++ [Event.clearTransmit, Event.clearLed]

/-- `send_command` (src/remotes.cpp): `for (; count; --count)` — one full
transmission then a `us4_between_repeats` hold, per remaining count. -/
def send_command (code : Encoding) (value : Nat) : Nat → List Event
  | 0 => []
  | n + 1 =>
      send_command_once code value
        ++ [Event.delay4us code.us4_between_repeats]
        ++ send_command code value n

/-- `sendcode` (src/remotes.cpp): guarded registry lookup; the default
argument `count = 12` of `send_command` is passed explicitly. -/
def sendcode (switch_index onoff : Nat) : List Event :=
  if switch_index < switches.length ∧ onoff < 2 then
    send_command
      (symbols.getD (switches.getD switch_index dummySwitch).encoding dummyEncoding)
      (if onoff = 1 then (switches.getD switch_index dummySwitch).signals.2
       else (switches.getD switch_index dummySwitch).signals.1)
      12
  else []

/-! ## Text parsing (src/remotes.cpp) -/

/-- The loop condition of `parse_uint16`:
`*input and *input <= '9' and *input >= '0'` (the `input < end` part is
the non-emptiness of the list). -/
def digitCond (c : Char) : Bool :=
  decide (c.toNat ≠ 0) && decide (c ≤ '9') && decide ('0' ≤ c)

/-- The loop of `parse_uint16` with the running accumulator `value`;
`value` is a `uint16_t`, so each `value = 10 * value + (*input - '0')`
wraps modulo `2 ^ 16`.  Returns the value and the rest of the input
(the advanced cursor). -/
def parse_uint16_loop : List Char → Nat → Nat × List Char
  | [], value => (value, [])
  | c :: rest, value =>
      if digitCond c then
        parse_uint16_loop rest ((10 * value + (c.toNat - '0'.toNat)) % 65536)
      else (value, c :: rest)

/-- `parse_uint16` (src/remotes.cpp): starts from `value = 0`. -/
def parse_uint16 (input : List Char) : Nat × List Char :=
  parse_uint16_loop input 0

/-- `consume` (src/remotes.cpp):
`while (*expectation and input < end and *input++ == *expectation++);
return *expectation == 0;`.
The expectation is a NUL-terminated C string, modelled as the list of
its characters; `*expectation == 0` is `expectation = []`.  Both
post-increments fire whenever the comparison is evaluated, so on a
character mismatch the returned cursor has moved past the offending
byte and the expectation pointer has moved past the byte it failed to
match. -/
def consume : List Char → List Char → Bool × List Char
  | input, [] => (true, input)
  | [], _ :: _ => (false, [])
  | c :: cs, e :: es =>
      if c = e then consume cs es else (decide (es = []), cs)

/-- `MQTT_BASE_NAME "switch/"`: the topic head consumed by `update`. -/
def switchTopic : List Char := "spider/switch/".toList

/-- `update` (src/remotes.cpp): the MQTT callback.  The packet fields
`topic` and `message` are the two byte spans; `current` is the hardware
tick at the `Timer::After` call; the mutated global `motionTimeout` is
threaded through.  Returns the transmitted event trace and the new
`motionTimeout`. -/
def update (current : Nat) (topic message : List Char)
    (motionTimeout : TimerWaitValue) : List Event × TimerWaitValue :=
  let r := consume topic switchTopic
  if r.1 then
    let sw := (parse_uint16 r.2).1 % 256
    let onoff := (parse_uint16 message).1 % 256
    (sendcode sw onoff, After current (4 * ticksPerSecond))
  else
    ([], motionTimeout)

/-- Number of leading positions at which the two lists agree; this is
the "number of leading topic bytes that matched the prefix" of the
specification, used to compare `consume` against its claimed contract. -/
def spec_matched_len : List Char → List Char → Nat
  | c :: cs, e :: es => if c = e then spec_matched_len cs es + 1 else 0
  | _, _ => 0

/-! ## Helper lemmas -/

theorem send_bits_eq_flatMap (code : Encoding) :
    ∀ n value, send_bits code value n = (emittedSymbols code value n).flatMap send_symbol
  | 0, _ => rfl
  | n + 1, value => by
      simp [send_bits, emittedSymbols, send_bits_eq_flatMap code n]

theorem emittedSymbols_length (code : Encoding) :
    ∀ n value, (emittedSymbols code value n).length = n
  | 0, _ => rfl
  | n + 1, value => by
      simp [emittedSymbols, emittedSymbols_length code n]

theorem emittedSymbols_getD (code : Encoding) :
    ∀ n i value, i < n →
      (emittedSymbols code value n).getD i ((0 : Nat), (0 : Nat)) =
        (if (value >>> i) % 2 = 1 then code.alphabet.2 else code.alphabet.1)
  | 0, i, _, h => absurd h (Nat.not_lt_zero i)
  | n + 1, 0, value, _ => by
      simp [emittedSymbols, Nat.shiftRight_zero]
  | n + 1, i + 1, value, h => by
      have ih := emittedSymbols_getD code n i (value / 2) (Nat.lt_of_succ_lt_succ h)
      simp only [emittedSymbols, List.getD_cons_succ, ih, Nat.shiftRight_succ_inside]

theorem emittedSymbols_mod (code : Encoding) :
    ∀ n value, emittedSymbols code value n = emittedSymbols code (value % 2 ^ n) n
  | 0, _ => rfl
  | n + 1, value => by
      have hmod : value % 2 ^ (n + 1) % 2 = value % 2 :=
        Nat.mod_mod_of_dvd value (dvd_pow_self 2 (Nat.succ_ne_zero n))
      have hdiv : value % 2 ^ (n + 1) / 2 = value / 2 % 2 ^ n := by
        rw [pow_succ, mul_comm]
        exact Nat.mod_mul_right_div_self value 2 (2 ^ n)
      simp only [emittedSymbols]
      rw [hmod, hdiv, ← emittedSymbols_mod code n (value / 2)]

theorem send_command_succ_ne_nil (code : Encoding) (value n : Nat) :
    send_command code value (n + 1) ≠ [] := by
  simp [send_command, send_command_once]

/-! ## Claim theorems -/

/-- Claim C3: a single transmission emits exactly `bits` symbols,
LSB-first; the i-th emitted symbol is `alphabet[(value >> i) & 1]`, and
bits of `value` beyond `bits` are shifted out and ignored. -/
theorem send_command_once_lsb_first (code : Encoding) (value i : Nat) (h : i < code.bits) :
    send_command_once code value =
      [Event.setLed]
        ++ (if code.us4_start_high ≠ 0 then
              [Event.setTransmit, Event.delay4us code.us4_start_high] else [])
        ++ (if code.us4_start_low ≠ 0 then
              [Event.clearTransmit, Event.delay4us code.us4_start_low] else [])
        ++ (emittedSymbols code value code.bits).flatMap send_symbol
        ++ [Event.clearTransmit, Event.clearLed] ∧
    (emittedSymbols code value code.bits).length = code.bits ∧
    (emittedSymbols code value code.bits).getD i ((0 : Nat), (0 : Nat)) =
      (if (value >>> i) % 2 = 1 then code.alphabet.2 else code.alphabet.1) ∧
    emittedSymbols code value code.bits = emittedSymbols code (value % 2 ^ code.bits) code.bits :=
  ⟨by rw [send_command_once, send_bits_eq_flatMap],
   emittedSymbols_length code code.bits value,
   emittedSymbols_getD code code.bits i value h,
   emittedSymbols_mod code code.bits value⟩

/-- Witness for C3 at the quigg protocol, `value = 5`, `i = 2`:
bit 2 of 5 is 1, so the third emitted symbol is the 1-symbol (350, 175). -/
theorem send_command_once_lsb_first_witness :
    (emittedSymbols (symbols.getD 0 dummyEncoding) 5
        (symbols.getD 0 dummyEncoding).bits).getD 2 ((0 : Nat), (0 : Nat)) = (350, 175) := by
  have h := (send_command_once_lsb_first (symbols.getD 0 dummyEncoding) 5 2 (by decide)).2.2.1
  rw [h]; decide

/-- Claim C4: `send_command` emits exactly `n` full pulse trains, each
followed by the `us4_between_repeats` hold (also after the last one),
with no early exit; `n = 0` emits nothing. -/
theorem send_command_repeats (code : Encoding) (value n : Nat) :
    send_command code value n =
      (List.replicate n
        (send_command_once code value ++ [Event.delay4us code.us4_between_repeats])).flatten ∧
    send_command code value 0 = [] := by
  refine ⟨?_, rfl⟩
  induction n with
  | zero => rfl
  | succ n ih => simp [send_command, List.replicate_succ, ih]

/-- Claim C5: `sendcode` transmits nothing exactly when the switch index
or the on/off value is out of range, and otherwise sends `signals[onoff]`
of the selected switch with the protocol named by its `encoding` field,
repeated 12 times. -/
theorem sendcode_lookup_spec (i b : Nat) :
    (sendcode i b = [] ↔ switches.length ≤ i ∨ 2 ≤ b) ∧
    (i < switches.length → b < 2 →
      sendcode i b =
        send_command
          (symbols.getD (switches.getD i dummySwitch).encoding dummyEncoding)
          (if b = 1 then (switches.getD i dummySwitch).signals.2
           else (switches.getD i dummySwitch).signals.1)
          12) := by
  constructor
  · unfold sendcode
    split
    · rename_i hguard
      have hne := send_command_succ_ne_nil
        (symbols.getD (switches.getD i dummySwitch).encoding dummyEncoding)
        (if b = 1 then (switches.getD i dummySwitch).signals.2
         else (switches.getD i dummySwitch).signals.1) 11
      constructor
      · intro heq; exact absurd heq hne
      · intro hor; exact absurd hguard (by omega)
    · rename_i hguard
      constructor
      · intro _
        omega
      · intro _
        rfl
  · intro hi hb
    unfold sendcode
    rw [if_pos ⟨hi, hb⟩]

/-- Witness for C5 at switch 0, on: the quigg protocol on-signal is sent. -/
theorem sendcode_lookup_spec_witness :
    sendcode 0 1 =
      send_command (symbols.getD (switches.getD 0 dummySwitch).encoding dummyEncoding)
        (switches.getD 0 dummySwitch).signals.2 12 := by
  have h := (sendcode_lookup_spec 0 1).2 (by decide) (by decide)
  simpa using h

/-- Claim C6: `After d` at tick `T` is the window `{T, (T + d) % 2^16}`;
`HasPassed` reports elapsed exactly per the two wrap branches, and the
`always = {0, 0}` sentinel is elapsed at every tick. -/
theorem after_hasPassed_spec (T d c : Nat) (w : TimerWaitValue) :
    After T d = ⟨T, (T + d) % 65536⟩ ∧
    (HasPassed c w = true ↔
      (if w.startValue ≤ w.endValue then w.endValue ≤ c ∨ c < w.startValue
       else c < w.startValue ∧ w.endValue ≤ c)) ∧
    HasPassed c always = true := by
  refine ⟨rfl, ?_, by simp [HasPassed, always]⟩
  unfold HasPassed
  split <;> simp [ge_iff_le]

/-- Claim C7: `HasPassedOnce` returns true and resets the window to
`always` exactly when `HasPassed` holds, else returns false leaving the
window unchanged; once it has returned true, every later call returns
true again. -/
theorem hasPassedOnce_spec (c : Nat) (w : TimerWaitValue) :
    HasPassedOnce c w = (if HasPassed c w then (true, always) else (false, w)) ∧
    (∀ c2, (HasPassedOnce c w).1 = true →
      (HasPassedOnce c2 (HasPassedOnce c w).2).1 = true) := by
  refine ⟨rfl, fun c2 h => ?_⟩
  by_cases hp : HasPassed c w
  · have h2 : (HasPassedOnce c w).2 = always := by simp [HasPassedOnce, hp]
    rw [h2]
    simp [HasPassedOnce, HasPassed, always]
  · simp [HasPassedOnce, hp] at h

/-- Witness for C7: the always-elapsed window fires at tick 0, and the
consumed window still reports elapsed at tick 3. -/
theorem hasPassedOnce_spec_witness :
    (HasPassedOnce 3 (HasPassedOnce 0 ⟨0, 0⟩).2).1 = true :=
  (hasPassedOnce_spec 0 ⟨0, 0⟩).2 3 (by decide)

/-- Claim C10: every window with `startValue = endValue` — not only the
`{0, 0}` sentinel — is elapsed at every tick, and `After 0` at a 16-bit
tick `T` yields such a window, immediately and permanently elapsed. -/
theorem degenerate_window_always_elapsed (c T : Nat) (w : TimerWaitValue)
    (hw : w.startValue = w.endValue) (hT : T < 65536) :
    HasPassed c w = true ∧
    (After T 0).startValue = (After T 0).endValue ∧
    (∀ c2, HasPassed c2 (After T 0) = true) := by
  have hm : T % 65536 = T := Nat.mod_eq_of_lt hT
  refine ⟨?_, ?_, fun c2 => ?_⟩
  · simp only [HasPassed, hw, le_refl, if_true, ge_iff_le, Bool.or_eq_true,
      decide_eq_true_eq]
    omega
  · simp [After]
    omega
  · simp only [HasPassed, After, Nat.add_zero, hm, le_refl, if_true, ge_iff_le,
      Bool.or_eq_true, decide_eq_true_eq]
    omega

/-- Witness for C10: the degenerate window `{42, 42}` is elapsed at
tick 7, and `After 100 0` is elapsed at tick 7. -/
theorem degenerate_window_always_elapsed_witness :
    HasPassed 7 ⟨42, 42⟩ = true ∧ HasPassed 7 (After 100 0) = true :=
  ⟨(degenerate_window_always_elapsed 7 100 ⟨42, 42⟩ rfl (by decide)).1,
   (degenerate_window_always_elapsed 7 100 ⟨42, 42⟩ rfl (by decide)).2.2 7⟩

/-! ## Parsing helper lemmas -/

theorem digitCond_ascii (c : Char) :
    digitCond c = (decide ('0' ≤ c) && decide (c ≤ '9')) := by
  unfold digitCond
  by_cases h1 : '0' ≤ c <;> by_cases h2 : c ≤ '9' <;> simp [h1, h2]
  have : (48 : Nat) ≤ c.toNat := by
    rw [Char.le_def] at h1
    exact h1
  omega

theorem parse_uint16_loop_spec (input : List Char) : ∀ v,
    parse_uint16_loop input v =
      ((input.takeWhile digitCond).foldl
        (fun a c => (10 * a + (c.toNat - '0'.toNat)) % 65536) v,
       input.dropWhile digitCond) := by
  induction input with
  | nil => intro v; rfl
  | cons c rest ih =>
    intro v
    by_cases h : digitCond c
    · simp [parse_uint16_loop, h, List.takeWhile_cons, List.dropWhile_cons, ih]
    · simp [parse_uint16_loop, h, List.takeWhile_cons, List.dropWhile_cons]

theorem consume_fst (e : List Char) : ∀ t : List Char,
    (consume t e).1 =
      decide (e.length ≤ t.length ∧ t.take (e.length - 1) = e.take (e.length - 1)) := by
  induction e with
  | nil => intro t; simp [consume]
  | cons e0 es ih =>
    intro t
    cases t with
    | nil => simp [consume]
    | cons c cs =>
      by_cases h : c = e0
      · subst h
        rw [show consume (c :: cs) (c :: es) = consume cs es by simp [consume]]
        rw [ih cs, decide_eq_decide]
        rcases es with _ | ⟨e1, es1⟩
        · simp
        · simp only [List.length_cons, Nat.add_sub_cancel, List.take_succ_cons,
            List.cons.injEq, true_and]
          constructor
          · rintro ⟨h1, h2⟩; exact ⟨by omega, h2⟩
          · rintro ⟨h1, h2⟩; exact ⟨by omega, h2⟩
      · rw [show consume (c :: cs) (e0 :: es) = (decide (es = []), cs) by
          simp [consume, h]]
        rw [decide_eq_decide]
        rcases es with _ | ⟨e1, es1⟩
        · simp
        · simp only [List.length_cons, Nat.add_sub_cancel, List.take_succ_cons,
            List.cons.injEq]
          constructor
          · intro habs; exact absurd habs (List.cons_ne_nil _ _)
          · rintro ⟨h1, h2, h3⟩; exact absurd h2 h

theorem consume_snd (e : List Char) : ∀ t : List Char,
    (consume t e).2 =
      t.drop (if t.take e.length = e then e.length
              else min (spec_matched_len t e + 1) t.length) := by
  induction e with
  | nil => intro t; simp [consume]
  | cons e0 es ih =>
    intro t
    cases t with
    | nil => simp [consume]
    | cons c cs =>
      by_cases h : c = e0
      · subst h
        rw [show consume (c :: cs) (c :: es) = consume cs es by simp [consume]]
        rw [ih cs]
        simp only [List.length_cons, List.take_succ_cons, List.cons.injEq, true_and,
          spec_matched_len, if_pos rfl]
        by_cases hc : cs.take es.length = es
        · simp [hc, List.drop_succ_cons]
        · simp [hc, Nat.succ_min_succ, List.drop_succ_cons]
      · rw [show consume (c :: cs) (e0 :: es) = (decide (es = []), cs) by
          simp [consume, h]]
        have htake : ¬((c :: cs).take ((e0 :: es).length) = e0 :: es) := by
          simp [List.take_succ_cons, h]
        rw [if_neg htake]
        have hsml : spec_matched_len (c :: cs) (e0 :: es) = 0 := by
          simp [spec_matched_len, h]
        rw [hsml]
        have hmin : min (0 + 1) ((c :: cs).length) = 1 := by
          simp
        rw [hmin]
        rfl

/-! ## Remaining claim theorems -/

/-- Claim C1 (amended): the exact contract of `consume`: it reports
success iff the expectation fits within the remaining topic bytes and
all bytes of the expectation but the last match the topic byte-for-byte
(the comparison result at the last expectation byte does not affect
success); the cursor advances by the expectation length when every
compared byte matched, by the whole topic when the topic runs out
first, and past the mismatching byte — matched bytes plus one — when a
byte mismatch stops the loop. -/
theorem consume_contract (t e : List Char) :
    consume t e =
      (decide (e.length ≤ t.length ∧ t.take (e.length - 1) = e.take (e.length - 1)),
       t.drop (if t.take e.length = e then e.length
               else min (spec_matched_len t e + 1) t.length)) :=
  Prod.ext (consume_fst e t) (consume_snd e t)

/-- Claim C1 counterexample: with expectation `"spider/switch/"` and
topic `"spider/switchX3"`, only 13 leading bytes match (the 14th topic
byte is `'X'`, not `'/'`), yet `consume` reports success, and the
cursor has advanced by 14 bytes (15 minus the 1 remaining), one past
the matched bytes. -/
theorem consume_cex :
    (consume "spider/switchX3".toList switchTopic).1 = true ∧
    "spider/switchX3".toList.take switchTopic.length ≠ switchTopic ∧
    spec_matched_len "spider/switchX3".toList switchTopic = 13 ∧
    (consume "spider/switchX3".toList switchTopic).2 = "3".toList ∧
    "spider/switchX3".toList.length = 15 := by
  decide

/-- Claim C8: `parse_uint16` consumes leading ASCII digits only,
stopping at the first non-digit or end of input, accumulating
`value * 10 + digit` modulo `2 ^ 16` with no overflow check; input
`"042abc"` yields 42 with the cursor at `'a'`, and empty input yields 0
with the cursor unchanged. -/
theorem parse_uint16_spec (input : List Char) :
    (parse_uint16 input).1 =
      (input.takeWhile digitCond).foldl
        (fun a c => (10 * a + (c.toNat - '0'.toNat)) % 65536) 0 ∧
    (parse_uint16 input).2 = input.dropWhile digitCond ∧
    (∀ c, digitCond c = (decide ('0' ≤ c) && decide (c ≤ '9'))) ∧
    parse_uint16 "042abc".toList = (42, "abc".toList) ∧
    parse_uint16 ([] : List Char) = (0, []) := by
  refine ⟨?_, ?_, digitCond_ascii, by decide, rfl⟩
  · rw [parse_uint16, parse_uint16_loop_spec]
  · rw [parse_uint16, parse_uint16_loop_spec]

/-- Claim C2 counterexample: topic `spider/switch/99` (index 99 out of
range) with payload `1` transmits nothing, yet `motionTimeout` does not
stay at its previous value `{5, 7}`: the window is re-armed anyway. -/
theorem update_cex :
    (update 0 "spider/switch/99".toList "1".toList ⟨5, 7⟩).1 = [] ∧
    (update 0 "spider/switch/99".toList "1".toList ⟨5, 7⟩).2 ≠ ⟨5, 7⟩ := by
  decide

/-- Claim C2 (amended): when the topic head matches, `update` transmits
nothing if the registry lookup fails (index or on/off out of range),
but it re-arms `motionTimeout` via `After (4 * ticksPerSecond)`
unconditionally — on every matching frame, not only on a successful
dispatch. -/
theorem update_after_match (current : Nat) (topic message : List Char)
    (w : TimerWaitValue) (h : (consume topic switchTopic).1 = true) :
    ((switches.length ≤ (parse_uint16 (consume topic switchTopic).2).1 % 256 ∨
        2 ≤ (parse_uint16 message).1 % 256) →
      (update current topic message w).1 = []) ∧
    (update current topic message w).2 = After current (4 * ticksPerSecond) := by
  constructor
  · intro hor
    unfold update
    simp only [h, if_true]
    unfold sendcode
    rw [if_neg (by omega)]
  · unfold update
    simp only [h, if_true]

/-- Witness for C2 (amended) at the out-of-range frame
`spider/switch/99` / `1`. -/
theorem update_after_match_witness :
    (update 0 "spider/switch/99".toList "1".toList always).1 = [] ∧
    (update 0 "spider/switch/99".toList "1".toList always).2 =
      After 0 (4 * ticksPerSecond) :=
  ⟨(update_after_match 0 "spider/switch/99".toList "1".toList always (by decide)).1
      (by decide),
   (update_after_match 0 "spider/switch/99".toList "1".toList always (by decide)).2⟩

/-- Claim C9: `update` narrows both parsed 16-bit values to 8 bits
(`uint8_t`), so the switch index and on/off value actually used are the
parsed values mod 256: topic index 256 addresses switch 0 and is
transmitted rather than ignored, and payload 256 acts as off (0). -/
theorem update_narrows_mod256 (current : Nat) (topic message : List Char)
    (w : TimerWaitValue) (h : (consume topic switchTopic).1 = true) :
    (update current topic message w).1 =
      sendcode ((parse_uint16 (consume topic switchTopic).2).1 % 256)
        ((parse_uint16 message).1 % 256) ∧
    (update current "spider/switch/256".toList "1".toList w).1 = sendcode 0 1 ∧
    sendcode 0 1 ≠ [] ∧
    (update current "spider/switch/3".toList "256".toList w).1 = sendcode 3 0 := by
  refine ⟨?_, ?_, ?_, ?_⟩
  · unfold update
    simp only [h, if_true]
  · have hc : (consume "spider/switch/256".toList switchTopic).1 = true := by decide
    have e1 : (parse_uint16 (consume "spider/switch/256".toList switchTopic).2).1 % 256
        = 0 := by decide
    have e2 : (parse_uint16 "1".toList).1 % 256 = 1 := by decide
    unfold update
    simp only [hc, if_true, e1, e2]
  · unfold sendcode
    rw [if_pos (by decide)]
    exact send_command_succ_ne_nil _ _ 11
  · have hc : (consume "spider/switch/3".toList switchTopic).1 = true := by decide
    have e1 : (parse_uint16 (consume "spider/switch/3".toList switchTopic).2).1 % 256
        = 3 := by decide
    have e2 : (parse_uint16 "256".toList).1 % 256 = 0 := by decide
    unfold update
    simp only [hc, if_true, e1, e2]

/-- Witness for C9 at the frame `spider/switch/256` / `1`. -/
theorem update_narrows_mod256_witness :
    (update 0 "spider/switch/256".toList "1".toList always).1 =
      sendcode ((parse_uint16 (consume "spider/switch/256".toList switchTopic).2).1 % 256)
        ((parse_uint16 "1".toList).1 % 256) :=
  (update_narrows_mod256 0 "spider/switch/256".toList "1".toList always (by decide)).1
